import Mathlib

/-!
Shallow embedding of `bitshifter/bevy-2d-rotation-example` (src/main.rs).

Machine `f32` arithmetic is modelled by exact real arithmetic; the two
floating-point thresholds the source uses (`f32::EPSILON` in
`rotate_to_player_system`, `1.0 - 2.0 * f32::EPSILON` in
`Quat::from_rotation_arc_2d`) are modelled by the exact rational value of
`f32::EPSILON`, namely `2 ^ (-23)`.  Division by zero in the model yields `0`
(Lean convention) where IEEE `f32` would yield `NaN`; the one place this
matters (normalizing a zero-length vector) is discussed at the corresponding
theorem.

Vector and quaternion operations (`dot`, `normalize`, quaternion product,
`mul_vec3`, `from_rotation_z`) are translated from the `glam` implementations
the source calls.
-/

noncomputable section

/-- 2D vector, models `glam::Vec2` over exact reals. -/
structure Vec2 where
  x : ℝ
  y : ℝ

/-- 3D vector, models `glam::Vec3` over exact reals. -/
structure Vec3 where
  x : ℝ
  y : ℝ
  z : ℝ

/-- Quaternion, models `glam::Quat` over exact reals. -/
structure Quat where
  x : ℝ
  y : ℝ
  z : ℝ
  w : ℝ

attribute [ext] Vec2 Vec3 Quat

/-- Exact value of `core::f32::EPSILON`, that is `2 ^ (-23)`. -/
def f32_EPSILON : ℝ := 1 / 8388608

/-- The threshold `1.0 - 2.0 * core::f32::EPSILON` from `from_rotation_arc_2d`. -/
def ONE_MINUS_EPSILON : ℝ := 1 - 2 * f32_EPSILON

/-- The fixed timestep constant `TIME_STEP: f32 = 1.0 / 60.0` (main.rs line 7). -/
def TIME_STEP : ℝ := 1 / 60

/-- The arena bound constant `BOUNDS: Vec2 = [1200.0, 640.0]` (main.rs line 8). -/
def BOUNDS : Vec2 := ⟨1200, 640⟩

/-- Dot product, models `Vec2::dot`. -/
def Vec2.dot (a b : Vec2) : ℝ := a.x * b.x + a.y * b.y

/-- Componentwise subtraction of 2D vectors. -/
def Vec2.sub (a b : Vec2) : Vec2 := ⟨a.x - b.x, a.y - b.y⟩

/-- Length, models `Vec2::length` (square root of the dot square). -/
def Vec2.length (v : Vec2) : ℝ := Real.sqrt (v.x * v.x + v.y * v.y)

/-- Models `Vec2::normalize`: the vector scaled by the reciprocal of its length.
In `f32` a zero vector normalizes to NaN components; in this real model the
reciprocal of zero is zero, so a zero vector normalizes to the zero vector.
Either way no error is signalled. -/
def Vec2.normalize (v : Vec2) : Vec2 :=
  ⟨v.x * (1 / v.length), v.y * (1 / v.length)⟩

/-- Projection `Vec3::xy` (the `Vec3Swizzles` method used by the source). -/
def Vec3.xy (v : Vec3) : Vec2 := ⟨v.x, v.y⟩

/-- Componentwise addition of 3D vectors. -/
def Vec3.add (a b : Vec3) : Vec3 := ⟨a.x + b.x, a.y + b.y, a.z + b.z⟩

/-- Scalar multiplication `v * s` of a 3D vector. -/
def Vec3.smul (v : Vec3) (s : ℝ) : Vec3 := ⟨v.x * s, v.y * s, v.z * s⟩

/-- Componentwise minimum, models `Vec3::min`. -/
def Vec3.minv (a b : Vec3) : Vec3 := ⟨min a.x b.x, min a.y b.y, min a.z b.z⟩

/-- Componentwise maximum, models `Vec3::max`. -/
def Vec3.maxv (a b : Vec3) : Vec3 := ⟨max a.x b.x, max a.y b.y, max a.z b.z⟩

/-- Componentwise negation of a 3D vector. -/
def Vec3.neg (v : Vec3) : Vec3 := ⟨-v.x, -v.y, -v.z⟩

/-- The identity quaternion `Quat::IDENTITY`. -/
def Quat.IDENTITY : Quat := ⟨0, 0, 0, 1⟩

/-- Hamilton product, models `glam`'s `Quat` multiplication (`q1 * q2`
composes rotations, applying `q2` first in the local frame). -/
def Quat.mul (a b : Quat) : Quat :=
  ⟨a.w * b.x + a.x * b.w + a.y * b.z - a.z * b.y,
   a.w * b.y + a.y * b.w + a.z * b.x - a.x * b.z,
   a.w * b.z + a.z * b.w + a.x * b.y - a.y * b.x,
   a.w * b.w - a.x * b.x - a.y * b.y - a.z * b.z⟩

instance : Mul Quat := ⟨Quat.mul⟩

/-- Rotation of a 3D vector by a quaternion, models `glam`'s `mul_vec3`:
`v * (w*w - b.dot(b)) + b * (v.dot(b) * 2) + b.cross(v) * (w * 2)` with
`b` the imaginary part of the quaternion. -/
def Quat.mulVec3 (q : Quat) (v : Vec3) : Vec3 :=
  let b2 : ℝ := q.x * q.x + q.y * q.y + q.z * q.z
  let d : ℝ := v.x * q.x + v.y * q.y + v.z * q.z
  ⟨v.x * (q.w * q.w - b2) + q.x * (d * 2) + (q.y * v.z - q.z * v.y) * (q.w * 2),
   v.y * (q.w * q.w - b2) + q.y * (d * 2) + (q.z * v.x - q.x * v.z) * (q.w * 2),
   v.z * (q.w * q.w - b2) + q.z * (d * 2) + (q.x * v.y - q.y * v.x) * (q.w * 2)⟩

/-- Models `Quat::from_rotation_z(angle)`: the quaternion
`(0, 0, sin(angle/2), cos(angle/2))`. -/
def Quat.from_rotation_z (angle : ℝ) : Quat :=
  ⟨0, 0, Real.sin (angle / 2), Real.cos (angle / 2)⟩

open Classical in
/-- Translation of `Quat::from_rotation_arc_2d` (main.rs lines 16 to 36):
`a` is the source's `from`, `b` the source's `to`. -/
def Quat.from_rotation_arc_2d (a b : Vec2) : Quat :=
  let dot := a.dot b
  if dot > ONE_MINUS_EPSILON then
    Quat.IDENTITY
  else if dot < -ONE_MINUS_EPSILON then
    Quat.mk 0 0 1 0
  else
    let z := a.x * b.y - b.x * a.y
    let w := 1 + dot
    let len_rcp := 1 / Real.sqrt (z * z + w * w)
    Quat.mk 0 0 (z * len_rcp) (w * len_rcp)

/-- A `bevy` `Transform` restricted to the fields the source uses. -/
structure Transform where
  translation : Vec3
  rotation : Quat

/-- The `Player` component (main.rs lines 55 to 61). -/
structure Player where
  movement_speed : ℝ
  rotation_speed : ℝ

/-- The `RotateToPlayer` component (main.rs lines 68 to 72). -/
structure RotateToPlayer where
  rotation_speed : ℝ

/-- The keyboard state the player system reads: Left, Right and Up key flags. -/
structure InputState where
  left : Bool
  right : Bool
  up : Bool

/-- Translation of `player_movement_system` (main.rs lines 121 to 159) acting
on the single player transform. -/
def player_movement_system (keyboard_input : InputState) (ship : Player)
    (transform : Transform) : Transform :=
  let rotation_factor : ℝ :=
    (if keyboard_input.left then (1 : ℝ) else 0) +
      (if keyboard_input.right then (-1 : ℝ) else 0)
  let movement_factor : ℝ := if keyboard_input.up then (1 : ℝ) else 0
  let rotation_delta := Quat.from_rotation_z
    (rotation_factor * ship.rotation_speed * TIME_STEP)
  let rotation := transform.rotation * rotation_delta
  let movement_direction := rotation.mulVec3 ⟨0, 1, 0⟩
  let movement_distance := movement_factor * ship.movement_speed * TIME_STEP
  let translation_delta := movement_direction.smul movement_distance
  let translation := transform.translation.add translation_delta
  let extents : Vec3 := ⟨BOUNDS.x / 2, BOUNDS.y / 2, 0⟩
  { translation := (translation.minv extents).maxv extents.neg
    rotation := rotation }

open Classical in
/-- Translation of the body of the `rotate_to_player_system` query loop
(main.rs lines 162 to 198) acting on one `RotateToPlayer` enemy transform;
the `continue` of the source (already facing the player) leaves the
transform unchanged. -/
def rotate_to_player_system (config : RotateToPlayer)
    (player_transform enemy_transform : Transform) : Transform :=
  let enemy_side := (enemy_transform.rotation.mulVec3 ⟨-1, 0, 0⟩).xy
  let to_player :=
    ((player_transform.translation.xy).sub (enemy_transform.translation.xy)).normalize
  let side_dot_player := enemy_side.dot to_player
  if side_dot_player > f32_EPSILON ∨ side_dot_player < -f32_EPSILON then
    let rotation_factor : ℝ := if side_dot_player > f32_EPSILON then 1 else -1
    let enemy_forward := (enemy_transform.rotation.mulVec3 ⟨0, 1, 0⟩).xy
    let forward_dot_player := enemy_forward.dot to_player
    let max_angle := Real.arccos (max (min forward_dot_player 1) (-1))
    let rotation_angle :=
      rotation_factor * min (config.rotation_speed * TIME_STEP) max_angle
    { enemy_transform with
        rotation := enemy_transform.rotation * Quat.from_rotation_z rotation_angle }
  else
    enemy_transform

/-- Translation of the body of the `snap_to_player_system` query loop
(main.rs lines 201 to 219) acting on one `SnapToPlayer` enemy transform. -/
def snap_to_player_system (player_transform enemy_transform : Transform) :
    Transform :=
  let enemy_forward := (enemy_transform.rotation.mulVec3 ⟨0, 1, 0⟩).xy
  let to_player :=
    ((player_transform.translation.xy).sub (enemy_transform.translation.xy)).normalize
  let rotate_to_player := Quat.from_rotation_arc_2d enemy_forward to_player
  { enemy_transform with
      rotation := enemy_transform.rotation * rotate_to_player }

open Classical in
/-- The rate-limited steering angle, extracted from `rotate_to_player_system`
(main.rs lines 173 to 189) as a function of the current forward direction `f`,
the target direction `t` and the per-tick angle budget `max_step`
(`config.rotation_speed * TIME_STEP` in the source).  For the z-axis-only
orientations the program uses, the source's `enemy_side` (the rotated `-X`
axis) equals the perpendicular `(-f.y, f.x)` of the rotated `+Y` forward axis
(lemma `side_eq_perp_forward` below). -/
def angle_limiter (f t : Vec2) (max_step : ℝ) : ℝ :=
  let side : Vec2 := ⟨-f.y, f.x⟩
  let side_dot := side.dot t
  let max_angle := Real.arccos (max (min (f.dot t) 1) (-1))
  if side_dot > f32_EPSILON then min max_step max_angle
  else if side_dot < -f32_EPSILON then -(min max_step max_angle)
  else 0

/-- The world the three fixed-timestep systems act on: the keyboard snapshot,
the player entity, the `SnapToPlayer` enemy transform and the `RotateToPlayer`
enemy with its config (the scene `setup` spawns exactly these bodies,
main.rs lines 74 to 118). -/
structure World where
  keyboard : InputState
  player : Player
  player_transform : Transform
  snap_transform : Transform
  rotate_config : RotateToPlayer
  rotate_transform : Transform

/-- The three systems registered in the fixed-timestep `SystemSet`
(main.rs lines 43 to 49). -/
inductive Sys
  | player_movement
  | snap_to_player
  | rotate_to_player

/-- Effect of running one system on the world. -/
def run_sys (s : Sys) (w : World) : World :=
  match s with
  | Sys.player_movement =>
      { w with player_transform :=
          player_movement_system w.keyboard w.player w.player_transform }
  | Sys.snap_to_player =>
      { w with snap_transform :=
          snap_to_player_system w.player_transform w.snap_transform }
  | Sys.rotate_to_player =>
      { w with rotate_transform :=
          rotate_to_player_system w.rotate_config w.player_transform w.rotate_transform }

/-- One fixed tick: the three systems run sequentially in the order `order`.
The source registers them with no ordering constraint (`with_system` three
times, main.rs lines 43 to 49), so the Bevy scheduler may execute them in any
order; `order` ranges over the possible schedules. -/
def run_schedule (order : List Sys) (w : World) : World :=
  order.foldl (fun w s => run_sys s w) w

/-- Remaining angle between a body's forward direction and the direction from
the body to the player, the quantity the spec's convergence property tracks. -/
def remaining_angle (player_transform enemy_transform : Transform) : ℝ :=
  Real.arccos
    (((enemy_transform.rotation.mulVec3 ⟨0, 1, 0⟩).xy).dot
      (((player_transform.translation.xy).sub
        (enemy_transform.translation.xy)).normalize))

/-- Orientation purely about the plane normal: zero x and y components. -/
def Quat.zOnly (q : Quat) : Prop := q.x = 0 ∧ q.y = 0

/-- All orientations in the world are rotations purely about the plane normal. -/
def World.zOnlyInv (w : World) : Prop :=
  w.player_transform.rotation.zOnly ∧ w.snap_transform.rotation.zOnly ∧
    w.rotate_transform.rotation.zOnly

end

noncomputable section

/-- Unfolding lemma for the `Mul Quat` instance. -/
lemma Quat.mul_def (a b : Quat) : a * b = Quat.mul a b := rfl

/-- Action of a quaternion with zero x and y components on a vector of the
simulation plane: a rotation-scale by the complex square of `(w, z)`. -/
lemma zQuat_mulVec3 (Z W vx vy : ℝ) :
    (Quat.mk 0 0 Z W).mulVec3 ⟨vx, vy, 0⟩ =
      ⟨(W * W - Z * Z) * vx - 2 * W * Z * vy,
       (W * W - Z * Z) * vy + 2 * W * Z * vx, 0⟩ := by
  simp only [Quat.mulVec3, Vec3.mk.injEq]
  refine ⟨by ring, by ring, by ring⟩

/-- Double angle formula specialised to the half angle, sine form. -/
lemma half_angle_sin (θ : ℝ) :
    2 * Real.sin (θ / 2) * Real.cos (θ / 2) = Real.sin θ := by
  rw [← Real.sin_two_mul]
  congr 1
  ring

/-- Double angle formula specialised to the half angle, cosine form. -/
lemma half_angle_cos (θ : ℝ) :
    Real.cos (θ / 2) ^ 2 - Real.sin (θ / 2) ^ 2 = Real.cos θ := by
  rw [← Real.cos_two_mul']
  congr 1
  ring

/-- Forward direction of a z rotation: rotating the local `+Y` axis by
`from_rotation_z θ` gives `(-sin θ, cos θ, 0)`. -/
lemma from_rotation_z_forward (θ : ℝ) :
    (Quat.from_rotation_z θ).mulVec3 ⟨0, 1, 0⟩ = ⟨-Real.sin θ, Real.cos θ, 0⟩ := by
  rw [Quat.from_rotation_z, zQuat_mulVec3]
  simp only [Vec3.mk.injEq]
  refine ⟨by linear_combination (-1 : ℝ) * half_angle_sin θ,
    by linear_combination half_angle_cos θ, trivial⟩

/-- Side direction of a z rotation: rotating the local `-X` axis by
`from_rotation_z θ` gives `(-cos θ, -sin θ, 0)`. -/
lemma from_rotation_z_side (θ : ℝ) :
    (Quat.from_rotation_z θ).mulVec3 ⟨-1, 0, 0⟩ = ⟨-Real.cos θ, -Real.sin θ, 0⟩ := by
  rw [Quat.from_rotation_z, zQuat_mulVec3]
  simp only [Vec3.mk.injEq]
  refine ⟨by linear_combination (-1 : ℝ) * half_angle_cos θ,
    by linear_combination (-1 : ℝ) * half_angle_sin θ, trivial⟩

/-- Composition of z rotations adds the angles. -/
lemma from_rotation_z_mul (a b : ℝ) :
    Quat.from_rotation_z a * Quat.from_rotation_z b =
      Quat.from_rotation_z (a + b) := by
  have hhalf : (a + b) / 2 = a / 2 + b / 2 := by ring
  simp only [Quat.mul_def, Quat.mul, Quat.from_rotation_z, Quat.mk.injEq, hhalf,
    Real.sin_add, Real.cos_add]
  refine ⟨by ring, by ring, by ring, by ring⟩

/-- The identity quaternion is a right unit for the Hamilton product. -/
lemma Quat.mul_IDENTITY (q : Quat) : q * Quat.IDENTITY = q := by
  simp only [Quat.mul_def, Quat.mul, Quat.IDENTITY]
  ext <;> simp

/-- Zero rotation about z is the identity quaternion. -/
lemma from_rotation_z_zero : Quat.from_rotation_z 0 = Quat.IDENTITY := by
  simp [Quat.from_rotation_z, Quat.IDENTITY]

/-- Quaternions with zero x and y components are closed under multiplication. -/
lemma zOnly_mul {q r : Quat} (hq : q.zOnly) (hr : r.zOnly) : (q * r).zOnly := by
  obtain ⟨h1, h2⟩ := hq
  obtain ⟨h3, h4⟩ := hr
  constructor <;> simp [Quat.mul_def, Quat.mul, Quat.zOnly, h1, h2, h3, h4]

/-- Quaternions with zero x and y components commute. -/
lemma zOnly_comm {q r : Quat} (hq : q.zOnly) (hr : r.zOnly) : q * r = r * q := by
  obtain ⟨h1, h2⟩ := hq
  obtain ⟨h3, h4⟩ := hr
  simp only [Quat.mul_def, Quat.mul, h1, h2, h3, h4]
  ext <;> ring

/-- For quaternions with zero x and y components acting on in-plane vectors,
the action of a product is the composition of the actions, whatever the
quaternion norms. -/
lemma zOnly_mulVec3_comp {q r : Quat} (hq : q.zOnly) (hr : r.zOnly) {v : Vec3}
    (hv : v.z = 0) : (q * r).mulVec3 v = q.mulVec3 (r.mulVec3 v) := by
  obtain ⟨h1, h2⟩ := hq
  obtain ⟨h3, h4⟩ := hr
  simp only [Quat.mul_def, Quat.mul, Quat.mulVec3, h1, h2, h3, h4, hv]
  ext <;> ring

end

noncomputable section

/-- The singularity threshold is strictly between 0 and 1. -/
lemma OME_pos : 0 < ONE_MINUS_EPSILON := by
  norm_num [ONE_MINUS_EPSILON, f32_EPSILON]

/-- The singularity threshold is strictly below 1. -/
lemma OME_lt_one : ONE_MINUS_EPSILON < 1 := by
  norm_num [ONE_MINUS_EPSILON, f32_EPSILON]

/-- Identity branch of the rotation arc. -/
lemma arc_eq_identity {a b : Vec2} (h : ONE_MINUS_EPSILON < a.dot b) :
    Quat.from_rotation_arc_2d a b = Quat.IDENTITY := by
  simp only [Quat.from_rotation_arc_2d]
  rw [if_pos h]

/-- Antiparallel branch of the rotation arc. -/
lemma arc_eq_pi {a b : Vec2} (h : a.dot b < -ONE_MINUS_EPSILON) :
    Quat.from_rotation_arc_2d a b = Quat.mk 0 0 1 0 := by
  have h1 : ¬ ONE_MINUS_EPSILON < a.dot b := by
    have := OME_pos
    push_neg
    linarith
  simp only [Quat.from_rotation_arc_2d]
  rw [if_neg h1, if_pos h]

/-- General branch of the rotation arc, spelled out in components. -/
lemma arc_eq_general {a b : Vec2} (h1 : a.dot b ≤ ONE_MINUS_EPSILON)
    (h2 : -ONE_MINUS_EPSILON ≤ a.dot b) :
    Quat.from_rotation_arc_2d a b =
      Quat.mk 0 0
        ((a.x * b.y - b.x * a.y) *
          (1 / Real.sqrt ((a.x * b.y - b.x * a.y) * (a.x * b.y - b.x * a.y) +
            (1 + a.dot b) * (1 + a.dot b))))
        ((1 + a.dot b) *
          (1 / Real.sqrt ((a.x * b.y - b.x * a.y) * (a.x * b.y - b.x * a.y) +
            (1 + a.dot b) * (1 + a.dot b)))) := by
  simp only [Quat.from_rotation_arc_2d]
  rw [if_neg (not_lt.mpr h1), if_neg (not_lt.mpr h2)]

/-- Lagrange identity for the planar cross and dot of two unit vectors. -/
lemma cross_sq_add_dot_sq {a b : Vec2} (ha : a.dot a = 1) (hb : b.dot b = 1) :
    (a.x * b.y - b.x * a.y) ^ 2 + (a.dot b) ^ 2 = 1 := by
  simp only [Vec2.dot] at ha hb ⊢
  nlinarith [ha, hb]

/-- Core of the round-trip law: away from both singularities, the arc
quaternion rotates the in-plane vector `a` exactly onto `b`. -/
lemma arc_apply_general {a b : Vec2} (ha : a.dot a = 1) (hb : b.dot b = 1)
    (h1 : a.dot b ≤ ONE_MINUS_EPSILON) (h2 : -ONE_MINUS_EPSILON ≤ a.dot b) :
    (Quat.from_rotation_arc_2d a b).mulVec3 ⟨a.x, a.y, 0⟩ = ⟨b.x, b.y, 0⟩ := by
  rw [arc_eq_general h1 h2, zQuat_mulVec3]
  have hw : 0 < 1 + a.dot b := by
    have := OME_lt_one
    linarith
  have hsum : 0 < (a.x * b.y - b.x * a.y) * (a.x * b.y - b.x * a.y) +
      (1 + a.dot b) * (1 + a.dot b) := by nlinarith
  set c : ℝ := a.x * b.y - b.x * a.y with hc
  set w : ℝ := 1 + a.dot b with hwdef
  set S : ℝ := Real.sqrt (c * c + w * w) with hS
  have hS2 : S ^ 2 = c * c + w * w := Real.sq_sqrt hsum.le
  have hSpos : 0 < S := Real.sqrt_pos.mpr hsum
  have hSne : S ≠ 0 := ne_of_gt hSpos
  have hA : a.x * a.x + a.y * a.y = 1 := ha
  have hB : b.x * b.x + b.y * b.y = 1 := hb
  have hd : a.dot b = a.x * b.x + a.y * b.y := rfl
  have keyx : (w * w - c * c) * a.x - 2 * w * c * a.y = b.x * (c * c + w * w) := by
    rw [hc, hwdef, hd]
    linear_combination (2 * (1 + (a.x * b.x + a.y * b.y)) * b.x -
      (b.x * b.x + b.y * b.y) * (a.x + b.x)) * hA + (-(a.x + b.x)) * hB
  have keyy : (w * w - c * c) * a.y + 2 * w * c * a.x = b.y * (c * c + w * w) := by
    rw [hc, hwdef, hd]
    linear_combination (2 * (1 + (a.x * b.x + a.y * b.y)) * b.y -
      (b.x * b.x + b.y * b.y) * (a.y + b.y)) * hA + (-(a.y + b.y)) * hB
  have hfrac : S ^ 2 * (1 / S) ^ 2 = 1 := by
    field_simp
  simp only [Vec3.mk.injEq]
  refine ⟨?_, ?_, trivial⟩
  · calc (w * (1 / S) * (w * (1 / S)) - c * (1 / S) * (c * (1 / S))) * a.x -
          2 * (w * (1 / S)) * (c * (1 / S)) * a.y
        = ((w * w - c * c) * a.x - 2 * w * c * a.y) * (1 / S) ^ 2 := by ring
      _ = (b.x * (c * c + w * w)) * (1 / S) ^ 2 := by rw [keyx]
      _ = b.x * (S ^ 2 * (1 / S) ^ 2) := by rw [hS2]; ring
      _ = b.x := by rw [hfrac, mul_one]
  · calc (w * (1 / S) * (w * (1 / S)) - c * (1 / S) * (c * (1 / S))) * a.y +
          2 * (w * (1 / S)) * (c * (1 / S)) * a.x
        = ((w * w - c * c) * a.y + 2 * w * c * a.x) * (1 / S) ^ 2 := by ring
      _ = (b.y * (c * c + w * w)) * (1 / S) ^ 2 := by rw [keyy]
      _ = b.y * (S ^ 2 * (1 / S) ^ 2) := by rw [hS2]; ring
      _ = b.y := by rw [hfrac, mul_one]

end

noncomputable section

/-- A vector whose components are not both zero has positive squared length. -/
lemma sq_sum_pos {v : Vec2} (h : ¬(v.x = 0 ∧ v.y = 0)) :
    0 < v.x * v.x + v.y * v.y := by
  rcases not_and_or.mp h with hx | hy
  · nlinarith [mul_self_nonneg v.y, mul_self_pos.mpr hx]
  · nlinarith [mul_self_nonneg v.x, mul_self_pos.mpr hy]

/-- Squared length of `Vec2.length`. -/
lemma length_sq (v : Vec2) : v.length ^ 2 = v.x * v.x + v.y * v.y :=
  Real.sq_sqrt (add_nonneg (mul_self_nonneg _) (mul_self_nonneg _))

/-- Positive length for a nonzero vector. -/
lemma length_pos {v : Vec2} (h : 0 < v.x * v.x + v.y * v.y) : 0 < v.length :=
  Real.sqrt_pos.mpr h

/-- Normalizing a nonzero vector yields a unit vector. -/
lemma normalize_unit {v : Vec2} (h : 0 < v.x * v.x + v.y * v.y) :
    (v.normalize).dot (v.normalize) = 1 := by
  have h2 := length_sq v
  have hp := length_pos h
  simp only [Vec2.normalize, Vec2.dot]
  field_simp
  nlinarith [h2]

/-- Concrete normalization used by the convergence scenario. -/
lemma normalize_0_100 : Vec2.normalize ⟨0, 100⟩ = ⟨0, 1⟩ := by
  have hl : (Vec2.length ⟨0, 100⟩) = 100 := by
    simp only [Vec2.length]
    rw [show ((0 : ℝ) * 0 + 100 * 100) = 100 ^ 2 by norm_num]
    exact Real.sqrt_sq (by norm_num)
  simp only [Vec2.normalize, hl]
  ext <;> norm_num

end

noncomputable section

/-- The machine epsilon model value is positive. -/
lemma f32_EPSILON_pos : 0 < f32_EPSILON := by norm_num [f32_EPSILON]

/-- Player transform used by the convergence scenario: at `(0, 100, 0)`,
so the direction from the origin to the player is the unit vector `(0, 1)`. -/
def tgtP : Transform := ⟨⟨0, 100, 0⟩, Quat.IDENTITY⟩

/-- Enemy transform at the origin whose forward direction makes the signed
angle `δ` with the direction to `tgtP` (rotation `from_rotation_z (-δ)`,
forward `(sin δ, cos δ)`). -/
def enemyAt (δ : ℝ) : Transform := ⟨⟨0, 0, 0⟩, Quat.from_rotation_z (-δ)⟩

/-- Arccosine of a cosine over one signed period. -/
lemma arccos_cos_abs {δ : ℝ} (hδ : |δ| ≤ Real.pi) :
    Real.arccos (Real.cos δ) = |δ| := by
  rcases le_or_lt 0 δ with h | h
  · rw [abs_of_nonneg h] at hδ ⊢
    exact Real.arccos_cos h hδ
  · rw [abs_of_neg h] at hδ ⊢
    rw [← Real.cos_neg]
    exact Real.arccos_cos (by linarith) hδ

/-- One tick of the rate-limited rotation in the convergence scenario: outside
the epsilon deadband the signed angle to the target moves toward zero by
exactly the smaller of the per-tick budget and the remaining angle. -/
lemma rotate_step_enemyAt (rs δ : ℝ) (hδ : |δ| ≤ Real.pi)
    (hε : f32_EPSILON < |Real.sin δ|) :
    rotate_to_player_system ⟨rs⟩ tgtP (enemyAt δ) =
      enemyAt (δ - (if 0 ≤ δ then 1 else -1) * min (rs * TIME_STEP) |δ|) := by
  have heps := f32_EPSILON_pos
  simp only [rotate_to_player_system, enemyAt, tgtP, Vec3.xy, Vec2.sub, sub_zero,
    from_rotation_z_side, from_rotation_z_forward, Real.cos_neg, Real.sin_neg,
    neg_neg, normalize_0_100, Vec2.dot, mul_zero, mul_one, zero_add, neg_zero]
  rw [min_eq_left (Real.cos_le_one δ), max_eq_left (Real.neg_one_le_cos δ),
    arccos_cos_abs hδ]
  rcases le_or_lt 0 δ with h | h
  · have hsp : f32_EPSILON < Real.sin δ := by
      have hnn : 0 ≤ Real.sin δ :=
        Real.sin_nonneg_of_nonneg_of_le_pi h (by rw [abs_of_nonneg h] at hδ; exact hδ)
      rwa [abs_of_nonneg hnn] at hε
    rw [if_pos (Or.inl hsp), if_pos hsp, if_pos h, from_rotation_z_mul]
    simp only [Transform.mk.injEq]
    exact ⟨trivial, congrArg Quat.from_rotation_z (by ring)⟩
  · have hsneg : Real.sin δ < -f32_EPSILON := by
      have hnp : Real.sin δ ≤ 0 := by
        have : 0 ≤ Real.sin (-δ) :=
          Real.sin_nonneg_of_nonneg_of_le_pi (by linarith)
            (by rw [abs_of_neg h] at hδ; exact hδ)
        rw [Real.sin_neg] at this
        linarith
      rw [abs_of_nonpos hnp] at hε
      linarith
    have hnot : ¬ f32_EPSILON < Real.sin δ := by linarith
    rw [if_pos (Or.inr hsneg), if_neg hnot, if_neg (not_le.mpr h), from_rotation_z_mul]
    simp only [Transform.mk.injEq]
    exact ⟨trivial, congrArg Quat.from_rotation_z (by ring)⟩

/-- The remaining angle of the convergence scenario is the absolute signed
angle. -/
lemma remaining_angle_enemyAt (δ : ℝ) (hδ : |δ| ≤ Real.pi) :
    remaining_angle tgtP (enemyAt δ) = |δ| := by
  simp only [remaining_angle, enemyAt, tgtP, Vec3.xy, Vec2.sub, sub_zero,
    from_rotation_z_forward, Real.cos_neg, Real.sin_neg, neg_neg,
    normalize_0_100, Vec2.dot, mul_zero, mul_one, zero_add, neg_zero]
  exact arccos_cos_abs hδ

end

noncomputable section

/-- Sine bound: angles between 7 and 37 degrees have sine well above the
modelled machine epsilon. -/
lemma sin_deg_gt_eps {k : ℝ} (h1 : 7 ≤ k) (h2 : k ≤ 37) :
    f32_EPSILON < |Real.sin (k * Real.pi / 180)| := by
  have hpi1 := Real.pi_gt_d2
  have hpi2 := Real.pi_lt_d2
  set x : ℝ := k * Real.pi / 180 with hx
  have hx1 : (1 / 10 : ℝ) ≤ x := by rw [hx]; nlinarith
  have hx2 : x ≤ (13 / 20 : ℝ) := by rw [hx]; nlinarith
  have hcube : x - x ^ 3 / 4 < Real.sin x :=
    Real.sin_gt_sub_cube (by linarith) (by linarith)
  have hc : x ^ 3 ≤ (13 / 20 : ℝ) ^ 3 := by
    have hxa : (0 : ℝ) ≤ x := by linarith
    nlinarith [mul_nonneg (mul_nonneg (sub_nonneg.mpr hx2) hxa) hxa,
      mul_nonneg (sub_nonneg.mpr hx2) hxa, sub_nonneg.mpr hx2]
  have hbound : f32_EPSILON < x - x ^ 3 / 4 := by
    have he : f32_EPSILON = 1 / 8388608 := rfl
    rw [he]
    nlinarith
  have hpos : 0 < Real.sin x := by
    have := f32_EPSILON_pos
    linarith
  rw [abs_of_pos hpos]
  linarith

/-- In the deadband (side dot within epsilon of zero) the rate-limited
rotation leaves the enemy unchanged. -/
lemma rotate_step_enemyAt_fixed (rs δ : ℝ)
    (h : ¬(f32_EPSILON < Real.sin δ ∨ Real.sin δ < -f32_EPSILON)) :
    rotate_to_player_system ⟨rs⟩ tgtP (enemyAt δ) = enemyAt δ := by
  simp only [rotate_to_player_system, enemyAt, tgtP, Vec3.xy, Vec2.sub, sub_zero,
    from_rotation_z_side, from_rotation_z_forward, Real.cos_neg, Real.sin_neg,
    neg_neg, normalize_0_100, Vec2.dot, mul_zero, mul_one, zero_add, neg_zero]
  rw [if_neg h]

/-- One 10-degree tick of the 37-degree convergence run while 10 or more
degrees remain. -/
lemma tick_ge10 {k : ℝ} (h1 : 10 ≤ k) (h2 : k ≤ 37) :
    rotate_to_player_system ⟨10 * Real.pi / 3⟩ tgtP (enemyAt (k * Real.pi / 180)) =
      enemyAt ((k - 10) * Real.pi / 180) := by
  have hpi := Real.pi_pos
  have h0 : 0 ≤ k * Real.pi / 180 := by positivity
  have hδ : |k * Real.pi / 180| ≤ Real.pi := by
    rw [abs_of_nonneg h0]
    nlinarith
  rw [rotate_step_enemyAt _ _ hδ (sin_deg_gt_eps (by linarith) h2)]
  congr 1
  rw [if_pos h0, abs_of_nonneg h0, TIME_STEP, min_eq_left (by nlinarith)]
  ring

/-- The final 7-degree tick of the convergence run: the remaining angle is
smaller than the 10-degree budget, so the rotation clamps and lands exactly
on the target. -/
lemma tick_7 :
    rotate_to_player_system ⟨10 * Real.pi / 3⟩ tgtP (enemyAt (7 * Real.pi / 180)) =
      enemyAt 0 := by
  have hpi := Real.pi_pos
  have h0 : 0 ≤ 7 * Real.pi / 180 := by positivity
  have hδ : |7 * Real.pi / 180| ≤ Real.pi := by
    rw [abs_of_nonneg h0]
    nlinarith
  rw [rotate_step_enemyAt _ _ hδ (sin_deg_gt_eps (by norm_num) (by norm_num))]
  congr 1
  rw [if_pos h0, abs_of_nonneg h0, TIME_STEP, min_eq_right (by nlinarith)]
  ring

end

noncomputable section

/-- C1 (amended): in the convergence scenario (player at distance 100 straight
up, enemy at the origin with signed angle delta to the target), for every
initial orientation outside the epsilon deadband, one tick of
LimitedRotateTarget reduces the remaining angle to exactly
the previous angle minus min(angular_speed times dt, angle): the decrease is
monotone with no overshoot; at zero remaining angle the tick is the identity
and the angle stays zero; and with a 10-degree per-tick budget and an initial
angle of 37 degrees the remaining angle is exactly 0 after 4 ticks. -/
theorem rotate_to_player_convergence (δ rs : ℝ) (hδ : |δ| ≤ Real.pi)
    (hε : f32_EPSILON < |Real.sin δ|) (hs : 0 ≤ rs) :
    remaining_angle tgtP (rotate_to_player_system ⟨rs⟩ tgtP (enemyAt δ)) =
      |δ| - min (rs * TIME_STEP) |δ| ∧
    0 ≤ |δ| - min (rs * TIME_STEP) |δ| ∧
    |δ| - min (rs * TIME_STEP) |δ| ≤ |δ| ∧
    rotate_to_player_system ⟨rs⟩ tgtP (enemyAt 0) = enemyAt 0 ∧
    remaining_angle tgtP (enemyAt 0) = 0 ∧
    remaining_angle tgtP
      (rotate_to_player_system ⟨10 * Real.pi / 3⟩ tgtP
        (rotate_to_player_system ⟨10 * Real.pi / 3⟩ tgtP
          (rotate_to_player_system ⟨10 * Real.pi / 3⟩ tgtP
            (rotate_to_player_system ⟨10 * Real.pi / 3⟩ tgtP
              (enemyAt (37 * Real.pi / 180)))))) = 0 := by
  have hm0 : 0 ≤ min (rs * TIME_STEP) |δ| :=
    le_min (mul_nonneg hs (by norm_num [TIME_STEP])) (abs_nonneg δ)
  have hmle : min (rs * TIME_STEP) |δ| ≤ |δ| := min_le_right _ _
  refine ⟨?_, by linarith, by linarith, ?_, ?_, ?_⟩
  · rw [rotate_step_enemyAt rs δ hδ hε]
    rcases le_or_lt 0 δ with h | h
    · rw [if_pos h]
      have habs : |δ| = δ := abs_of_nonneg h
      rw [habs] at hm0 hmle hδ ⊢
      rw [one_mul]
      have h1 : 0 ≤ δ - min (rs * TIME_STEP) δ := by linarith
      rw [remaining_angle_enemyAt (δ - min (rs * TIME_STEP) δ)
        (by rw [abs_of_nonneg h1]; linarith), abs_of_nonneg h1]
    · rw [if_neg (not_le.mpr h)]
      have habs : |δ| = -δ := abs_of_neg h
      rw [habs] at hm0 hmle hδ ⊢
      rw [show δ - -1 * min (rs * TIME_STEP) (-δ) = δ + min (rs * TIME_STEP) (-δ)
        from by ring]
      have h1 : δ + min (rs * TIME_STEP) (-δ) ≤ 0 := by linarith
      rw [remaining_angle_enemyAt (δ + min (rs * TIME_STEP) (-δ))
        (by rw [abs_of_nonpos h1]; linarith), abs_of_nonpos h1]
      ring
  · exact rotate_step_enemyAt_fixed rs 0 (by norm_num [Real.sin_zero, f32_EPSILON])
  · rw [remaining_angle_enemyAt 0 (by rw [abs_zero]; exact Real.pi_pos.le), abs_zero]
  · have t1 := tick_ge10 (k := 37) (by norm_num) (by norm_num)
    have t2 := tick_ge10 (k := 27) (by norm_num) (by norm_num)
    have t3 := tick_ge10 (k := 17) (by norm_num) (by norm_num)
    rw [t1, show ((37 : ℝ) - 10) * Real.pi / 180 = 27 * Real.pi / 180 from by norm_num]
    rw [t2, show ((27 : ℝ) - 10) * Real.pi / 180 = 17 * Real.pi / 180 from by norm_num]
    rw [t3, show ((17 : ℝ) - 10) * Real.pi / 180 = 7 * Real.pi / 180 from by norm_num]
    rw [tick_7, remaining_angle_enemyAt 0 (by rw [abs_zero]; exact Real.pi_pos.le),
      abs_zero]

/-- Witness for the convergence theorem at delta = pi/2 and angular speed 3. -/
theorem rotate_to_player_convergence_witness :
    (|Real.pi / 2| ≤ Real.pi ∧ f32_EPSILON < |Real.sin (Real.pi / 2)| ∧ (0 : ℝ) ≤ 3) ∧
    remaining_angle tgtP (rotate_to_player_system ⟨3⟩ tgtP (enemyAt (Real.pi / 2))) =
      |Real.pi / 2| - min (3 * TIME_STEP) |Real.pi / 2| := by
  have h1 : |Real.pi / 2| ≤ Real.pi := by
    rw [abs_of_nonneg (by positivity : (0 : ℝ) ≤ Real.pi / 2)]
    linarith [Real.pi_pos]
  have h2 : f32_EPSILON < |Real.sin (Real.pi / 2)| := by
    rw [Real.sin_pi_div_two, abs_one]
    norm_num [f32_EPSILON]
  exact ⟨⟨h1, h2, by norm_num⟩,
    (rotate_to_player_convergence (Real.pi / 2) 3 h1 h2 (by norm_num)).1⟩

/-- C1 counterexample: an enemy whose forward direction is exactly opposite
the target direction (remaining angle pi) has side dot exactly zero, so the
source's "already facing the player" branch fires, one tick leaves the pose
unchanged, and the remaining angle stays pi forever instead of decreasing to
zero. -/
theorem rotate_to_player_antiparallel_stuck :
    rotate_to_player_system ⟨Real.pi / 4⟩ tgtP (enemyAt Real.pi) = enemyAt Real.pi ∧
    remaining_angle tgtP (enemyAt Real.pi) = Real.pi ∧ Real.pi ≠ 0 := by
  refine ⟨rotate_step_enemyAt_fixed _ _ (by norm_num [Real.sin_pi, f32_EPSILON]),
    ?_, Real.pi_ne_zero⟩
  rw [remaining_angle_enemyAt Real.pi (le_of_eq (abs_of_nonneg Real.pi_pos.le)),
    abs_of_nonneg Real.pi_pos.le]

end

noncomputable section

/-- Every branch of the rotation arc yields a quaternion with zero x and y. -/
lemma arc_zOnly (a b : Vec2) : (Quat.from_rotation_arc_2d a b).zOnly := by
  simp only [Quat.from_rotation_arc_2d, Quat.zOnly, Quat.IDENTITY]
  split_ifs <;> exact ⟨rfl, rfl⟩

/-- The identity quaternion acts as the identity on vectors. -/
lemma IDENTITY_mulVec3 (v : Vec3) : Quat.IDENTITY.mulVec3 v = v := by
  simp only [Quat.mulVec3, Quat.IDENTITY]
  ext <;> ring

/-- C4: for all unit 2D directions, when the dot product exceeds
1 - 2 eps the rotation arc is the identity rotation, and when it is below
-(1 - 2 eps) it is the fixed 180-degree rotation about the plane normal,
the quaternion (0, 0, 1, 0). -/
theorem from_rotation_arc_2d_singularities (a b : Vec2)
    (_ha : a.dot a = 1) (_hb : b.dot b = 1) :
    (1 - 2 * f32_EPSILON < a.dot b →
      Quat.from_rotation_arc_2d a b = Quat.IDENTITY) ∧
    (a.dot b < -(1 - 2 * f32_EPSILON) →
      Quat.from_rotation_arc_2d a b = Quat.mk 0 0 1 0) := by
  constructor
  · intro h
    exact arc_eq_identity h
  · intro h
    exact arc_eq_pi h

/-- Witness for the singularity branches at (0,1) against (0,1) and (0,-1). -/
theorem from_rotation_arc_2d_singularities_witness :
    (Vec2.dot ⟨0, 1⟩ ⟨0, 1⟩ = 1 ∧ 1 - 2 * f32_EPSILON < Vec2.dot ⟨0, 1⟩ ⟨0, 1⟩ ∧
      Quat.from_rotation_arc_2d ⟨0, 1⟩ ⟨0, 1⟩ = Quat.IDENTITY) ∧
    (Vec2.dot ⟨0, -1⟩ ⟨0, -1⟩ = 1 ∧
      Vec2.dot ⟨0, 1⟩ ⟨0, -1⟩ < -(1 - 2 * f32_EPSILON) ∧
      Quat.from_rotation_arc_2d ⟨0, 1⟩ ⟨0, -1⟩ = Quat.mk 0 0 1 0) := by
  have hu : Vec2.dot ⟨0, 1⟩ ⟨0, 1⟩ = 1 := by norm_num [Vec2.dot]
  have hu2 : Vec2.dot ⟨0, -1⟩ ⟨0, -1⟩ = 1 := by norm_num [Vec2.dot]
  have hd1 : 1 - 2 * f32_EPSILON < Vec2.dot ⟨0, 1⟩ ⟨0, 1⟩ := by
    norm_num [Vec2.dot, f32_EPSILON]
  have hd2 : Vec2.dot ⟨0, 1⟩ ⟨0, -1⟩ < -(1 - 2 * f32_EPSILON) := by
    norm_num [Vec2.dot, f32_EPSILON]
  exact ⟨⟨hu, hd1, (from_rotation_arc_2d_singularities _ _ hu hu).1 hd1⟩,
    ⟨hu2, hd2, (from_rotation_arc_2d_singularities ⟨0, 1⟩ ⟨0, -1⟩ hu hu2).2 hd2⟩⟩

/-- C5: away from both singularities, the rotation arc built from cross and
1 + dot, normalized, rotates the first unit direction exactly onto the
second (round-trip law). -/
theorem from_rotation_arc_2d_round_trip (a b : Vec2) (ha : a.dot a = 1)
    (hb : b.dot b = 1) (h1 : -(1 - 2 * f32_EPSILON) ≤ a.dot b)
    (h2 : a.dot b ≤ 1 - 2 * f32_EPSILON) :
    (Quat.from_rotation_arc_2d a b).mulVec3 ⟨a.x, a.y, 0⟩ = ⟨b.x, b.y, 0⟩ :=
  arc_apply_general ha hb h2 h1

/-- Witness for the round-trip law at a quarter turn from (0,1) to (1,0). -/
theorem from_rotation_arc_2d_round_trip_witness :
    (Vec2.dot ⟨0, 1⟩ ⟨0, 1⟩ = 1 ∧ Vec2.dot ⟨1, 0⟩ ⟨1, 0⟩ = 1 ∧
      -(1 - 2 * f32_EPSILON) ≤ Vec2.dot ⟨0, 1⟩ ⟨1, 0⟩ ∧
      Vec2.dot ⟨0, 1⟩ ⟨1, 0⟩ ≤ 1 - 2 * f32_EPSILON) ∧
    (Quat.from_rotation_arc_2d ⟨0, 1⟩ ⟨1, 0⟩).mulVec3 ⟨Vec2.mk 0 1 |>.x, Vec2.mk 0 1 |>.y, 0⟩ =
      ⟨Vec2.mk 1 0 |>.x, Vec2.mk 1 0 |>.y, 0⟩ := by
  have hu1 : Vec2.dot ⟨0, 1⟩ ⟨0, 1⟩ = 1 := by norm_num [Vec2.dot]
  have hu2 : Vec2.dot ⟨1, 0⟩ ⟨1, 0⟩ = 1 := by norm_num [Vec2.dot]
  have hl : -(1 - 2 * f32_EPSILON) ≤ Vec2.dot ⟨0, 1⟩ ⟨1, 0⟩ := by
    norm_num [Vec2.dot, f32_EPSILON]
  have hr : Vec2.dot ⟨0, 1⟩ ⟨1, 0⟩ ≤ 1 - 2 * f32_EPSILON := by
    norm_num [Vec2.dot, f32_EPSILON]
  exact ⟨⟨hu1, hu2, hl, hr⟩,
    from_rotation_arc_2d_round_trip ⟨0, 1⟩ ⟨1, 0⟩ hu1 hu2 hl hr⟩

/-- C6: for unit facings and a nonnegative per-tick budget, the limited
steering angle has magnitude at most the budget and at most the angle to the
target, and a facing already aligned with the target yields exactly zero. -/
theorem angle_limiter_bounds (f t : Vec2) (m : ℝ) (hf : f.dot f = 1)
    (ht : t.dot t = 1) (hm : 0 ≤ m) :
    |angle_limiter f t m| ≤ m ∧
    |angle_limiter f t m| ≤ Real.arccos (f.dot t) ∧
    angle_limiter f f m = 0 := by
  have hcd := cross_sq_add_dot_sq hf ht
  have hle1 : f.dot t ≤ 1 := by nlinarith [sq_nonneg (f.x * t.y - t.x * f.y)]
  have hge1 : -1 ≤ f.dot t := by nlinarith [sq_nonneg (f.x * t.y - t.x * f.y)]
  have hclamp : max (min (f.dot t) 1) (-1) = f.dot t := by
    rw [min_eq_left hle1, max_eq_left hge1]
  have hA0 : 0 ≤ Real.arccos (f.dot t) := Real.arccos_nonneg _
  have hmin0 : 0 ≤ min m (Real.arccos (f.dot t)) := le_min hm hA0
  refine ⟨?_, ?_, ?_⟩
  · simp only [angle_limiter, hclamp]
    split_ifs
    · rw [abs_of_nonneg hmin0]
      exact min_le_left _ _
    · rw [abs_neg, abs_of_nonneg hmin0]
      exact min_le_left _ _
    · rw [abs_zero]
      exact hm
  · simp only [angle_limiter, hclamp]
    split_ifs
    · rw [abs_of_nonneg hmin0]
      exact min_le_right _ _
    · rw [abs_neg, abs_of_nonneg hmin0]
      exact min_le_right _ _
    · rw [abs_zero]
      exact hA0
  · simp only [angle_limiter, Vec2.dot]
    rw [show -f.y * f.x + f.x * f.y = 0 from by ring]
    rw [if_neg (by norm_num [f32_EPSILON]), if_neg (by norm_num [f32_EPSILON])]

/-- Witness for the limiter bounds with facing (1,0), target (0,1), budget 5. -/
theorem angle_limiter_bounds_witness :
    (Vec2.dot ⟨1, 0⟩ ⟨1, 0⟩ = 1 ∧ Vec2.dot ⟨0, 1⟩ ⟨0, 1⟩ = 1 ∧ (0 : ℝ) ≤ 5) ∧
    |angle_limiter ⟨1, 0⟩ ⟨0, 1⟩ 5| ≤ 5 ∧
    angle_limiter ⟨1, 0⟩ ⟨1, 0⟩ 5 = 0 := by
  have h1 : Vec2.dot ⟨1, 0⟩ ⟨1, 0⟩ = 1 := by norm_num [Vec2.dot]
  have h2 : Vec2.dot ⟨0, 1⟩ ⟨0, 1⟩ = 1 := by norm_num [Vec2.dot]
  have h3 : (0 : ℝ) ≤ 5 := by norm_num
  exact ⟨⟨h1, h2, h3⟩, (angle_limiter_bounds ⟨1, 0⟩ ⟨0, 1⟩ 5 h1 h2 h3).1,
    (angle_limiter_bounds ⟨1, 0⟩ ⟨1, 0⟩ 5 h1 h1 h3).2.2⟩

end

noncomputable section

/-- Forward direction of a body: its orientation applied to the local +Y
axis, projected to the plane (the pattern both enemy systems compute). -/
def forward_dir (tr : Transform) : Vec2 := (tr.rotation.mulVec3 ⟨0, 1, 0⟩).xy

/-- Target direction of a steered body: the normalized planar vector from its
translation to the player translation (the pattern both enemy systems
compute). -/
def to_dir (player_transform enemy_transform : Transform) : Vec2 :=
  ((player_transform.translation.xy).sub (enemy_transform.translation.xy)).normalize

/-- Composing a z-only orientation with the rotation arc from its forward
direction to a unit target direction leaves the new forward direction within
squared distance 4 eps of the target (exactly on the target outside the
singular branches). -/
lemma arc_then_apply (f t : Vec2) (q : Quat) (hq : q.zOnly)
    (hfwd : q.mulVec3 ⟨0, 1, 0⟩ = ⟨f.x, f.y, 0⟩)
    (hf : f.dot f = 1) (ht : t.dot t = 1) :
    (((q * Quat.from_rotation_arc_2d f t).mulVec3 ⟨0, 1, 0⟩).xy.x - t.x) ^ 2 +
      (((q * Quat.from_rotation_arc_2d f t).mulVec3 ⟨0, 1, 0⟩).xy.y - t.y) ^ 2 ≤
      4 * f32_EPSILON := by
  have hA : (Quat.from_rotation_arc_2d f t).zOnly := arc_zOnly f t
  have hcomm : q * Quat.from_rotation_arc_2d f t =
      Quat.from_rotation_arc_2d f t * q := zOnly_comm hq hA
  have hcomp : (Quat.from_rotation_arc_2d f t * q).mulVec3 ⟨0, 1, 0⟩ =
      (Quat.from_rotation_arc_2d f t).mulVec3 (q.mulVec3 ⟨0, 1, 0⟩) :=
    zOnly_mulVec3_comp hA hq rfl
  rw [hcomm, hcomp, hfwd]
  rcases lt_or_le ONE_MINUS_EPSILON (f.dot t) with hgt | hle1
  · rw [arc_eq_identity hgt, IDENTITY_mulVec3]
    simp only [Vec3.xy]
    have hOME : ONE_MINUS_EPSILON = 1 - 2 * f32_EPSILON := rfl
    simp only [Vec2.dot] at hf ht hgt
    rw [hOME] at hgt
    nlinarith [hf, ht, hgt]
  · rcases lt_or_le (f.dot t) (-ONE_MINUS_EPSILON) with hlt | hge
    · rw [arc_eq_pi hlt, zQuat_mulVec3]
      simp only [Vec3.xy]
      have hOME : ONE_MINUS_EPSILON = 1 - 2 * f32_EPSILON := rfl
      simp only [Vec2.dot] at hf ht hlt
      rw [hOME] at hlt
      nlinarith [hf, ht, hlt]
    · rw [arc_apply_general hf ht hle1 hge]
      simp only [Vec3.xy]
      have := f32_EPSILON_pos
      nlinarith

end

noncomputable section

/-- C7: one application of SnapToTarget makes the body's forward direction
(its orientation applied to the local forward axis) agree with the normalized
direction from its position to the target position within squared distance
4 eps (the tolerance the singular branches of the rotation arc allow; away
from those branches the agreement is exact), for every prior planar
orientation and every non-coincident pair of positions. -/
theorem snap_to_player_aligns (θ : ℝ) (P : Transform) (ev : Vec3)
    (hne : ¬(P.translation.x = ev.x ∧ P.translation.y = ev.y)) :
    ((forward_dir (snap_to_player_system P ⟨ev, Quat.from_rotation_z θ⟩)).x -
        (to_dir P ⟨ev, Quat.from_rotation_z θ⟩).x) ^ 2 +
      ((forward_dir (snap_to_player_system P ⟨ev, Quat.from_rotation_z θ⟩)).y -
        (to_dir P ⟨ev, Quat.from_rotation_z θ⟩).y) ^ 2 ≤ 4 * f32_EPSILON := by
  have hd : 0 < (Vec2.sub (P.translation.xy) (Vec3.xy ev)).x *
      (Vec2.sub (P.translation.xy) (Vec3.xy ev)).x +
      (Vec2.sub (P.translation.xy) (Vec3.xy ev)).y *
      (Vec2.sub (P.translation.xy) (Vec3.xy ev)).y := by
    apply sq_sum_pos
    intro hz
    apply hne
    have h1 := hz.1
    have h2 := hz.2
    simp only [Vec2.sub, Vec3.xy] at h1 h2
    constructor
    · linarith
    · linarith
  have ht := normalize_unit hd
  have hf : Vec2.dot ⟨-Real.sin θ, Real.cos θ⟩ ⟨-Real.sin θ, Real.cos θ⟩ = 1 := by
    simp only [Vec2.dot]
    linear_combination Real.sin_sq_add_cos_sq θ
  have hfr : ((Quat.from_rotation_z θ).mulVec3 ⟨0, 1, 0⟩).xy =
      (⟨-Real.sin θ, Real.cos θ⟩ : Vec2) := by
    rw [from_rotation_z_forward]
    rfl
  simp only [snap_to_player_system, forward_dir, to_dir]
  rw [hfr]
  exact arc_then_apply _ _ _ ⟨rfl, rfl⟩ (by rw [from_rotation_z_forward]) hf ht

/-- Witness for the snap alignment with the player 100 units above the enemy. -/
theorem snap_to_player_aligns_witness :
    (¬((Transform.mk ⟨0, 100, 0⟩ Quat.IDENTITY).translation.x = (Vec3.mk 0 0 0).x ∧
       (Transform.mk ⟨0, 100, 0⟩ Quat.IDENTITY).translation.y = (Vec3.mk 0 0 0).y)) ∧
    ((forward_dir (snap_to_player_system (Transform.mk ⟨0, 100, 0⟩ Quat.IDENTITY)
          ⟨⟨0, 0, 0⟩, Quat.from_rotation_z 0⟩)).x -
        (to_dir (Transform.mk ⟨0, 100, 0⟩ Quat.IDENTITY)
          ⟨⟨0, 0, 0⟩, Quat.from_rotation_z 0⟩).x) ^ 2 +
      ((forward_dir (snap_to_player_system (Transform.mk ⟨0, 100, 0⟩ Quat.IDENTITY)
          ⟨⟨0, 0, 0⟩, Quat.from_rotation_z 0⟩)).y -
        (to_dir (Transform.mk ⟨0, 100, 0⟩ Quat.IDENTITY)
          ⟨⟨0, 0, 0⟩, Quat.from_rotation_z 0⟩).y) ^ 2 ≤ 4 * f32_EPSILON := by
  have hne : ¬((Transform.mk (⟨0, 100, 0⟩ : Vec3) Quat.IDENTITY).translation.x =
      (Vec3.mk 0 0 0).x ∧
      (Transform.mk (⟨0, 100, 0⟩ : Vec3) Quat.IDENTITY).translation.y =
      (Vec3.mk 0 0 0).y) := by
    intro hz
    have := hz.2
    norm_num at this
  exact ⟨hne, snap_to_player_aligns 0 (Transform.mk ⟨0, 100, 0⟩ Quat.IDENTITY) ⟨0, 0, 0⟩ hne⟩

end

noncomputable section

/-- C8: for every keyboard state, every speed pair, every orientation and
every position, the player update is exactly: new orientation = old angle
plus ((left then +1 else 0) + (right then -1 else 0)) times angular speed
times dt (rotation about the plane normal composed in the local frame, so
angles add); translation delta = the forward direction recomputed from the
UPDATED orientation (the sine and cosine below take the already-incremented
angle) times (thrust then 1 else 0) times linear speed times dt, followed by
the arena clamp; in particular with thrust only, speed 500 and dt = 1/60 the
position advances by exactly 500/60 units along the current forward direction
while the orientation is unchanged (the clamp is a no-op from the origin). -/
theorem player_movement_spec (keyboard : InputState) (ms rs θ : ℝ) (tr : Vec3) :
    player_movement_system keyboard ⟨ms, rs⟩ ⟨tr, Quat.from_rotation_z θ⟩ =
      ⟨((tr.add
          ((Vec3.mk
            (-Real.sin (θ +
              ((if keyboard.left then (1 : ℝ) else 0) +
                (if keyboard.right then (-1 : ℝ) else 0)) * rs * TIME_STEP))
            (Real.cos (θ +
              ((if keyboard.left then (1 : ℝ) else 0) +
                (if keyboard.right then (-1 : ℝ) else 0)) * rs * TIME_STEP))
            0).smul
            ((if keyboard.up then (1 : ℝ) else 0) * ms * TIME_STEP))).minv
          ⟨BOUNDS.x / 2, BOUNDS.y / 2, 0⟩).maxv
          (Vec3.neg ⟨BOUNDS.x / 2, BOUNDS.y / 2, 0⟩),
        Quat.from_rotation_z (θ +
          ((if keyboard.left then (1 : ℝ) else 0) +
            (if keyboard.right then (-1 : ℝ) else 0)) * rs * TIME_STEP)⟩ ∧
    player_movement_system ⟨false, false, true⟩ ⟨500, rs⟩
        ⟨⟨0, 0, 0⟩, Quat.from_rotation_z θ⟩ =
      ⟨⟨500 / 60 * (-Real.sin θ), 500 / 60 * Real.cos θ, 0⟩,
        Quat.from_rotation_z θ⟩ := by
  constructor
  · rw [show player_movement_system keyboard ⟨ms, rs⟩
        ⟨tr, Quat.from_rotation_z θ⟩ =
        ⟨((tr.add
            (((Quat.from_rotation_z θ * Quat.from_rotation_z
                (((if keyboard.left then (1 : ℝ) else 0) +
                  (if keyboard.right then (-1 : ℝ) else 0)) * rs * TIME_STEP)).mulVec3
              ⟨0, 1, 0⟩).smul
              ((if keyboard.up then (1 : ℝ) else 0) * ms * TIME_STEP))).minv
            ⟨BOUNDS.x / 2, BOUNDS.y / 2, 0⟩).maxv
            (Vec3.neg ⟨BOUNDS.x / 2, BOUNDS.y / 2, 0⟩),
          Quat.from_rotation_z θ * Quat.from_rotation_z
            (((if keyboard.left then (1 : ℝ) else 0) +
              (if keyboard.right then (-1 : ℝ) else 0)) * rs * TIME_STEP)⟩ from rfl,
      from_rotation_z_mul, from_rotation_z_forward]
  · have hs1 := Real.neg_one_le_sin θ
    have hs2 := Real.sin_le_one θ
    have hc1 := Real.neg_one_le_cos θ
    have hc2 := Real.cos_le_one θ
    have hstep : player_movement_system ⟨false, false, true⟩ ⟨500, rs⟩
        ⟨⟨0, 0, 0⟩, Quat.from_rotation_z θ⟩ =
        ⟨(((Vec3.mk 0 0 0).add
            (((Quat.from_rotation_z θ *
                Quat.from_rotation_z ((0 + 0) * rs * TIME_STEP)).mulVec3
              ⟨0, 1, 0⟩).smul (1 * 500 * TIME_STEP))).minv
            ⟨BOUNDS.x / 2, BOUNDS.y / 2, 0⟩).maxv
            (Vec3.neg ⟨BOUNDS.x / 2, BOUNDS.y / 2, 0⟩),
          Quat.from_rotation_z θ *
            Quat.from_rotation_z ((0 + 0) * rs * TIME_STEP)⟩ := rfl
    rw [hstep, show ((0 : ℝ) + 0) * rs * TIME_STEP = 0 from by ring,
      from_rotation_z_zero, Quat.mul_IDENTITY, from_rotation_z_forward]
    simp only [Vec3.add, Vec3.smul, Vec3.minv, Vec3.maxv, Vec3.neg, BOUNDS,
      TIME_STEP, Transform.mk.injEq, Vec3.mk.injEq]
    norm_num
    have hx1 : -(Real.sin θ * (25 / 3 : ℝ)) ≤ 600 := by nlinarith
    have hx2 : (-600 : ℝ) ≤ -(Real.sin θ * (25 / 3)) := by nlinarith
    have hy1 : Real.cos θ * (25 / 3 : ℝ) ≤ 320 := by nlinarith
    have hy2 : (-320 : ℝ) ≤ Real.cos θ * (25 / 3) := by nlinarith
    constructor
    · rw [min_eq_left hx1, max_eq_left hx2]
      ring
    · rw [min_eq_left hy1, max_eq_left hy2]
      ring

end

noncomputable section

/-- Each system preserves the z-only orientation invariant of the world. -/
lemma run_sys_zOnly (s : Sys) (w : World) (hw : w.zOnlyInv) :
    (run_sys s w).zOnlyInv := by
  obtain ⟨h1, h2, h3⟩ := hw
  cases s
  case player_movement =>
    exact ⟨zOnly_mul h1 ⟨rfl, rfl⟩, h2, h3⟩
  case snap_to_player =>
    exact ⟨h1, zOnly_mul h2 (arc_zOnly _ _), h3⟩
  case rotate_to_player =>
    refine ⟨h1, h2, ?_⟩
    simp only [run_sys, rotate_to_player_system]
    split_ifs <;> first
      | exact zOnly_mul h3 ⟨rfl, rfl⟩
      | exact h3

/-- A whole tick preserves the z-only orientation invariant, whatever order
the scheduler picks. -/
lemma run_schedule_zOnly (order : List Sys) (w : World) (hw : w.zOnlyInv) :
    (run_schedule order w).zOnlyInv := by
  induction order generalizing w with
  | nil => exact hw
  | cons s rest ih => exact ih _ (run_sys_zOnly s w hw)

/-- C9: every quaternion the system constructs (identity, rotation arc,
z-rotation deltas) has zero x and y components, products of such quaternions
keep zero x and y, and a world whose orientations are all z-only keeps z-only
orientations after a tick under every system order. -/
theorem orientation_z_only_invariant (q r : Quat) (hq : q.zOnly) (hr : r.zOnly)
    (angle : ℝ) (a b : Vec2) (order : List Sys) (w : World) (hw : w.zOnlyInv) :
    Quat.IDENTITY.zOnly ∧ (Quat.from_rotation_z angle).zOnly ∧
    (Quat.from_rotation_arc_2d a b).zOnly ∧ (q * r).zOnly ∧
    (run_schedule order w).zOnlyInv :=
  ⟨⟨rfl, rfl⟩, ⟨rfl, rfl⟩, arc_zOnly a b, zOnly_mul hq hr,
    run_schedule_zOnly order w hw⟩

/-- Witness for the z-only invariant on the setup scene under the
registration order of the three systems. -/
theorem orientation_z_only_invariant_witness :
    Quat.IDENTITY.zOnly ∧ (Quat.IDENTITY * Quat.IDENTITY).zOnly ∧
    (run_schedule [Sys.player_movement, Sys.snap_to_player, Sys.rotate_to_player]
      ⟨⟨false, false, false⟩, ⟨500, 2 * Real.pi⟩, ⟨⟨0, -280, 0⟩, Quat.IDENTITY⟩,
        ⟨⟨-300, 0, 0⟩, Quat.IDENTITY⟩, ⟨Real.pi / 4⟩,
        ⟨⟨300, 0, 0⟩, Quat.IDENTITY⟩⟩).zOnlyInv := by
  have hq : Quat.IDENTITY.zOnly := ⟨rfl, rfl⟩
  have hw : (World.mk ⟨false, false, false⟩ ⟨500, 2 * Real.pi⟩
      ⟨⟨0, -280, 0⟩, Quat.IDENTITY⟩ ⟨⟨-300, 0, 0⟩, Quat.IDENTITY⟩
      ⟨Real.pi / 4⟩ ⟨⟨300, 0, 0⟩, Quat.IDENTITY⟩).zOnlyInv :=
    ⟨⟨rfl, rfl⟩, ⟨rfl, rfl⟩, ⟨rfl, rfl⟩⟩
  obtain ⟨c1, c2, c3, c4, c5⟩ := orientation_z_only_invariant Quat.IDENTITY
    Quat.IDENTITY hq hq 0 ⟨0, 1⟩ ⟨0, 1⟩
    [Sys.player_movement, Sys.snap_to_player, Sys.rotate_to_player] _ hw
  exact ⟨c1, c4, c5⟩

/-- The rate-limited rotation never changes the translation. -/
lemma rotate_translation (config : RotateToPlayer) (P E : Transform) :
    (rotate_to_player_system config P E).translation = E.translation := by
  simp only [rotate_to_player_system]
  split_ifs <;> rfl

/-- The snap rotation never changes the translation. -/
lemma snap_translation (P E : Transform) :
    (snap_to_player_system P E).translation = E.translation := rfl

/-- No single system changes an enemy translation. -/
lemma run_sys_translations (s : Sys) (w : World) :
    (run_sys s w).snap_transform.translation = w.snap_transform.translation ∧
    (run_sys s w).rotate_transform.translation = w.rotate_transform.translation := by
  cases s
  case player_movement => exact ⟨rfl, rfl⟩
  case snap_to_player => exact ⟨snap_translation _ _, rfl⟩
  case rotate_to_player => exact ⟨rfl, rotate_translation _ _ _⟩

/-- No tick changes an enemy translation, whatever order the scheduler picks. -/
lemma run_schedule_translations (order : List Sys) (w : World) :
    (run_schedule order w).snap_transform.translation =
      w.snap_transform.translation ∧
    (run_schedule order w).rotate_transform.translation =
      w.rotate_transform.translation := by
  induction order generalizing w with
  | nil => exact ⟨rfl, rfl⟩
  | cons s rest ih =>
    obtain ⟨ih1, ih2⟩ := ih (run_sys s w)
    obtain ⟨hs1, hs2⟩ := run_sys_translations s w
    exact ⟨ih1.trans hs1, ih2.trans hs2⟩

/-- C10: the two steering updates mutate only the rotation of a steered body:
both enemy translations are exactly unchanged by each step and by a whole
tick under every system order, so the player is the only body whose
translation is ever modified or clamped. -/
theorem steering_preserves_translation (config : RotateToPlayer)
    (P E : Transform) (order : List Sys) (w : World) :
    (rotate_to_player_system config P E).translation = E.translation ∧
    (snap_to_player_system P E).translation = E.translation ∧
    (run_schedule order w).snap_transform.translation =
      w.snap_transform.translation ∧
    (run_schedule order w).rotate_transform.translation =
      w.rotate_transform.translation :=
  ⟨rotate_translation config P E, snap_translation P E,
    (run_schedule_translations order w).1, (run_schedule_translations order w).2⟩

end

noncomputable section

/-- Normalizing a vector pointing straight up. -/
lemma normalize_0_pos {c : ℝ} (hc : 0 < c) : Vec2.normalize ⟨0, c⟩ = ⟨0, 1⟩ := by
  have hl : (Vec2.length ⟨0, c⟩) = c := by
    simp only [Vec2.length]
    rw [show (0 : ℝ) * 0 + c * c = c ^ 2 from by ring]
    exact Real.sqrt_sq hc.le
  have hne : c ≠ 0 := ne_of_gt hc
  simp only [Vec2.normalize, hl]
  ext
  · simp
  · field_simp

/-- Normalizing a vector pointing straight down. -/
lemma normalize_0_neg {c : ℝ} (hc : c < 0) : Vec2.normalize ⟨0, c⟩ = ⟨0, -1⟩ := by
  have hl : (Vec2.length ⟨0, c⟩) = -c := by
    simp only [Vec2.length]
    rw [show (0 : ℝ) * 0 + c * c = (-c) ^ 2 from by ring]
    exact Real.sqrt_sq (by linarith)
  have hne : c ≠ 0 := ne_of_lt hc
  simp only [Vec2.normalize, hl]
  ext
  · simp
  · field_simp

/-- The identity quaternion is a left unit for the Hamilton product. -/
lemma IDENTITY_mul (q : Quat) : Quat.IDENTITY * q = q := by
  simp only [Quat.mul_def, Quat.mul, Quat.IDENTITY]
  ext <;> simp

/-- C2 (amended): the fixed-timestep registration imposes no order between
the player system and the enemy steering systems, and the player pose an
enemy system observes is whatever is current when that system runs: under
orders where the enemy systems precede the player system they steer against
the previous tick's player pose, and under orders where the player system
runs first (including the source's registration order) they steer against
the player pose already updated within the same tick. -/
theorem tick_target_read_order (w : World) :
    (run_schedule [Sys.snap_to_player, Sys.rotate_to_player, Sys.player_movement]
        w).snap_transform =
      snap_to_player_system w.player_transform w.snap_transform ∧
    (run_schedule [Sys.snap_to_player, Sys.rotate_to_player, Sys.player_movement]
        w).rotate_transform =
      rotate_to_player_system w.rotate_config w.player_transform
        w.rotate_transform ∧
    (run_schedule [Sys.player_movement, Sys.snap_to_player, Sys.rotate_to_player]
        w).snap_transform =
      snap_to_player_system
        (player_movement_system w.keyboard w.player w.player_transform)
        w.snap_transform ∧
    (run_schedule [Sys.player_movement, Sys.snap_to_player, Sys.rotate_to_player]
        w).rotate_transform =
      rotate_to_player_system w.rotate_config
        (player_movement_system w.keyboard w.player w.player_transform)
        w.rotate_transform :=
  ⟨rfl, rfl, rfl, rfl⟩

end

noncomputable section

/-- Snap steering against the pre-tick player pose (player straight above):
the enemy already faces the player and keeps the identity orientation. -/
lemma snap_pre :
    snap_to_player_system ⟨⟨0, 5, 0⟩, Quat.from_rotation_z Real.pi⟩
        ⟨⟨0, 0, 0⟩, Quat.IDENTITY⟩ = ⟨⟨0, 0, 0⟩, Quat.IDENTITY⟩ := by
  simp only [snap_to_player_system, Vec3.xy, Vec2.sub, IDENTITY_mulVec3]
  norm_num
  rw [normalize_0_pos (by norm_num : (0 : ℝ) < 5),
    arc_eq_identity (by norm_num [Vec2.dot, ONE_MINUS_EPSILON, f32_EPSILON]),
    Quat.mul_IDENTITY]

/-- The thrusting player facing straight down moves 500/60 units down. -/
lemma player_moves_down :
    player_movement_system ⟨false, false, true⟩ ⟨500, 2 * Real.pi⟩
        ⟨⟨0, 5, 0⟩, Quat.from_rotation_z Real.pi⟩ =
      ⟨⟨0, -(10 / 3), 0⟩, Quat.from_rotation_z Real.pi⟩ := by
  have hstep : player_movement_system ⟨false, false, true⟩ ⟨500, 2 * Real.pi⟩
      ⟨⟨0, 5, 0⟩, Quat.from_rotation_z Real.pi⟩ =
      ⟨(((Vec3.mk 0 5 0).add
          (((Quat.from_rotation_z Real.pi *
              Quat.from_rotation_z ((0 + 0) * (2 * Real.pi) * TIME_STEP)).mulVec3
            ⟨0, 1, 0⟩).smul (1 * 500 * TIME_STEP))).minv
          ⟨BOUNDS.x / 2, BOUNDS.y / 2, 0⟩).maxv
          (Vec3.neg ⟨BOUNDS.x / 2, BOUNDS.y / 2, 0⟩),
        Quat.from_rotation_z Real.pi *
          Quat.from_rotation_z ((0 + 0) * (2 * Real.pi) * TIME_STEP)⟩ := rfl
  rw [hstep, show ((0 : ℝ) + 0) * (2 * Real.pi) * TIME_STEP = 0 from by ring,
    from_rotation_z_zero, Quat.mul_IDENTITY, from_rotation_z_forward,
    Real.sin_pi, Real.cos_pi]
  simp only [Vec3.add, Vec3.smul, Vec3.minv, Vec3.maxv, Vec3.neg, BOUNDS,
    TIME_STEP, Transform.mk.injEq, Vec3.mk.injEq]
  norm_num

/-- Snap steering against the post-update player pose (player now below):
the enemy flips by the 180-degree quaternion. -/
lemma snap_post :
    snap_to_player_system ⟨⟨0, -(10 / 3), 0⟩, Quat.from_rotation_z Real.pi⟩
        ⟨⟨0, 0, 0⟩, Quat.IDENTITY⟩ = ⟨⟨0, 0, 0⟩, Quat.mk 0 0 1 0⟩ := by
  simp only [snap_to_player_system, Vec3.xy, Vec2.sub, IDENTITY_mulVec3]
  norm_num
  rw [normalize_0_neg (by norm_num : (-(10 / 3) : ℝ) < 0),
    arc_eq_pi (by norm_num [Vec2.dot, ONE_MINUS_EPSILON, f32_EPSILON]),
    IDENTITY_mul]

/-- C2 counterexample: in the source's registration order (player movement
first), the snap enemy steers against the player pose already updated within
the same tick, not the pose of the previous tick: with the player at (0,5)
facing down and thrusting, and the snap enemy at the origin, the tick result
differs from steering against the pre-tick player pose. -/
theorem snap_reads_updated_player_pose :
    (run_schedule [Sys.player_movement, Sys.snap_to_player, Sys.rotate_to_player]
        ⟨⟨false, false, true⟩, ⟨500, 2 * Real.pi⟩,
          ⟨⟨0, 5, 0⟩, Quat.from_rotation_z Real.pi⟩,
          ⟨⟨0, 0, 0⟩, Quat.IDENTITY⟩, ⟨Real.pi / 4⟩,
          ⟨⟨300, 0, 0⟩, Quat.IDENTITY⟩⟩).snap_transform ≠
      snap_to_player_system ⟨⟨0, 5, 0⟩, Quat.from_rotation_z Real.pi⟩
        ⟨⟨0, 0, 0⟩, Quat.IDENTITY⟩ := by
  intro h
  have hL : (run_schedule
      [Sys.player_movement, Sys.snap_to_player, Sys.rotate_to_player]
      ⟨⟨false, false, true⟩, ⟨500, 2 * Real.pi⟩,
        ⟨⟨0, 5, 0⟩, Quat.from_rotation_z Real.pi⟩,
        ⟨⟨0, 0, 0⟩, Quat.IDENTITY⟩, ⟨Real.pi / 4⟩,
        ⟨⟨300, 0, 0⟩, Quat.IDENTITY⟩⟩).snap_transform =
      snap_to_player_system
        (player_movement_system ⟨false, false, true⟩ ⟨500, 2 * Real.pi⟩
          ⟨⟨0, 5, 0⟩, Quat.from_rotation_z Real.pi⟩)
        ⟨⟨0, 0, 0⟩, Quat.IDENTITY⟩ := rfl
  rw [player_moves_down, snap_post] at hL
  rw [snap_pre, hL] at h
  have hw := congrArg (fun tr => tr.rotation.w) h
  norm_num [Quat.IDENTITY] at hw

end

noncomputable section

/-- C3: when a snapped body's position coincides exactly with the player's,
the source calls normalize on the zero vector and proceeds: no error of any
kind is signalled. In this real-valued model the zero vector normalizes to
the zero (non-unit) direction and the step returns an ordinary transform; in
IEEE f32 the same call yields NaN components that propagate into the
rotation, equally without any DegenerateDirection signal. -/
theorem snap_degenerate_no_error :
    Vec2.normalize ⟨0, 0⟩ = ⟨0, 0⟩ ∧
    snap_to_player_system ⟨⟨0, 0, 0⟩, Quat.IDENTITY⟩ ⟨⟨0, 0, 0⟩, Quat.IDENTITY⟩ =
      ⟨⟨0, 0, 0⟩, Quat.IDENTITY⟩ := by
  have hn : Vec2.normalize ⟨0, 0⟩ = (⟨0, 0⟩ : Vec2) := by
    simp only [Vec2.normalize, Vec2.length]
    ext <;> norm_num
  refine ⟨hn, ?_⟩
  simp only [snap_to_player_system, Vec3.xy, Vec2.sub, IDENTITY_mulVec3]
  norm_num
  rw [hn,
    arc_eq_general (by norm_num [Vec2.dot, ONE_MINUS_EPSILON, f32_EPSILON])
      (by norm_num [Vec2.dot, ONE_MINUS_EPSILON, f32_EPSILON])]
  norm_num [Vec2.dot, Real.sqrt_one, Transform.mk.injEq, Quat.mul_def,
    Quat.mul, Quat.IDENTITY, Quat.mk.injEq]

end
